import Mathlib

/-!
# xtmon: window registry and title resolution

A shallow embedding of `xtmon.c`.  Window and atom handles are 32-bit server
ids and are represented by natural numbers.  A C array together with its
element counter (`windows[]`, `*num_windows`) is represented by the list of its
first `*num_windows` cells, so the counter is the length of the list.  Values
read from the X server (property replies, the client list, the active window)
are inputs of the embedded functions.
-/

namespace Xtmon

/-- Window handle (`xcb_window_t`, a 32-bit id). -/
abbrev xcb_window_t := Nat

/-- Atom handle (`xcb_atom_t`, a 32-bit id). -/
abbrev xcb_atom_t := Nat

/-- Constant `MAX_TITLE_LENGTH` of the source. -/
def MAX_TITLE_LENGTH : Nat := 256

/-- Constant `MAX_NUM_WINDOWS` of the source: the number of cells of the
arrays `windows` (in `main`) and `new_windows` (in `update_managed_windows`). -/
def MAX_NUM_WINDOWS : Nat := 256

/-! ## Window registry -/

/-- Linear search of `window` in the first `num_windows` cells of `windows`
(the list holds exactly those cells). -/
def window_in_array (window : xcb_window_t) : List xcb_window_t → Bool
  | [] => false
  | w :: rest => if window = w then true else window_in_array window rest

/-- Snapshot of the root window's `_NET_CLIENT_LIST`: the request asks for
`(sizeof(xcb_window_t) * MAX_NUM_WINDOWS) / 4` 32-bit words, so at most
`MAX_NUM_WINDOWS` handles of the server's list are copied. -/
def get_managed_windows (client_list : List xcb_window_t) : List xcb_window_t :=
  client_list.take MAX_NUM_WINDOWS

/-- First loop of `update_managed_windows`: scans `new_windows` from index 0
and stops at the first cell that is not found in `windows`. -/
def find_added (windows : List xcb_window_t) : List xcb_window_t → Option xcb_window_t
  | [] => none
  | w :: rest =>
    if !window_in_array w windows then some w else find_added windows rest

/-- Second loop of `update_managed_windows`: scans `windows[i..]` and stops at
the first index whose cell is not found in `new_windows`. -/
def find_removed (new_windows : List xcb_window_t) :
    List xcb_window_t → Nat → Option Nat
  | [], _ => none
  | w :: rest, i =>
    if !window_in_array w new_windows then some i
    else find_removed new_windows rest (i + 1)

/-- Inner loop of the removal branch,
`for (j = i + 1; j < *num_windows; j++) windows[j - 1] = windows[j];`
started at `j`; the first argument bounds the number of iterations. -/
def shift_windows : Nat → List xcb_window_t → Nat → List xcb_window_t
  | 0, windows, _ => windows
  | fuel + 1, windows, j =>
    if j < windows.length then
      shift_windows fuel (windows.set (j - 1) (windows.getD j 0)) (j + 1)
    else windows

/-- Outcome of one call of `update_managed_windows`: the returned `int8_t`,
the cells `windows[0 .. *num_windows)` after the call, the value stored in
`*changed_window`, and the window passed to `subscribe` (if any). -/
structure UpdateResult where
  delta : Int
  windows : List xcb_window_t
  changed_window : xcb_window_t
  subscribed : Option xcb_window_t
  deriving DecidableEq, Repr

/-- The function `update_managed_windows`.  `new_windows` is the snapshot
returned by the call of `get_managed_windows` at its start; `windows` holds the
cells `windows[0 .. *num_windows)` on entry.

The addition branch stores at index `*num_windows` and increments the counter;
the source compares neither with `MAX_NUM_WINDOWS`, so the list grows by one
cell whatever its length (for a list of `MAX_NUM_WINDOWS` cells the C store is
past the end of the caller's array).  The removal branch shifts the tail down
by one cell and decrements the counter (`*num_windows += -1`, where the index
found is below the counter, so the counter is positive). -/
def update_managed_windows (new_windows windows : List xcb_window_t) : UpdateResult :=
  match find_added windows new_windows with
  | some w =>
    { delta := 1, windows := windows ++ [w], changed_window := w, subscribed := some w }
  | none =>
    match find_removed new_windows windows 0 with
    | some i =>
      { delta := -1
        windows := (shift_windows windows.length windows (i + 1)).take (windows.length - 1)
        changed_window := windows.getD i 0
        subscribed := none }
    | none =>
      { delta := 0, windows := windows, changed_window := 0, subscribed := none }

/-- Registry after a sequence of client-list notifications, each handled by one
call of `update_managed_windows` (the `_NET_CLIENT_LIST` branch of the event
loop in `main`). -/
def run_updates (windows : List xcb_window_t) :
    List (List xcb_window_t) → List xcb_window_t
  | [] => windows
  | new_windows :: rest =>
    run_updates (update_managed_windows new_windows windows).windows rest

/-! ## Title resolution -/

/-- The atoms interned by `setup` (the globals of the same names). -/
structure Atoms where
  _NET_CLIENT_LIST : xcb_atom_t
  _NET_ACTIVE_WINDOW : xcb_atom_t
  WM_NAME : xcb_atom_t
  _NET_WM_NAME : xcb_atom_t
  UTF8_STRING : xcb_atom_t
  COMPOUND_TEXT : xcb_atom_t
  STRING : xcb_atom_t

/-- The fields of an `xcb_get_property_reply_t` that `get_window_title` reads:
the declared type and the value bytes (`xcb_get_property_value`, whose length is
`xcb_get_property_value_length`).  The value pointer of a reply is never
`NULL`, it points just behind the reply header. -/
structure Reply where
  type : xcb_atom_t
  value : List Nat
  deriving DecidableEq, Repr

/-- Largest `size_t` (64 bits wide); the error value `(size_t)-1` of the C
library. -/
def SIZE_MAX : Nat := 2 ^ 64 - 1

/-- Outcome of decoding one multibyte character at the head of a byte
sequence in the active locale (what `mbrtowc` reports): a wide character made
of `len` bytes, an invalid sequence, or a proper prefix of a character. -/
inductive MbStep where
  | wide (wc : Nat) (len : Nat)
  | invalid
  | incomplete
  deriving DecidableEq, Repr

/-- The C library's `mbsnrtowcs (dst, &src, nms, len, NULL)`: `src` holds the
`nms` source bytes, the first argument is `len`, `out` the wide characters
stored in `dst` so far.  Returns the cells stored at the start of `dst` and the
returned `size_t`: the number of wide characters stored, not counting a
terminating null, or `(size_t)-1` at an invalid sequence.  Conversion stops when
`len` characters are stored, when the source bytes are used up (also in the
middle of a character), or behind a null character. -/
def mbsnrtowcs (mbrtowc : List Nat → MbStep) :
    Nat → List Nat → List Nat → List Nat × Nat
  | 0, _, out => (out, out.length)
  | len + 1, src, out =>
    if src = [] then (out, out.length)
    else
      match mbrtowc src with
      | MbStep.invalid => (out, SIZE_MAX)
      | MbStep.incomplete => (out, out.length)
      | MbStep.wide wc n =>
        if wc = 0 then (out ++ [0], out.length)
        else mbsnrtowcs mbrtowc len (src.drop n) (out ++ [wc])

/-- Bytes of a C string literal (all literals of the source are ASCII). -/
def c_string (s : String) : List Nat := s.toList.map Char.toNat

/-- The wide string held by a buffer, as `%ls` prints it: the cells before
the first null. -/
def wcs (buffer : List Nat) : List Nat := buffer.takeWhile (fun c => c ≠ 0)

/-- Lines 118 to 132 of `get_window_title`: the bytes `new_title[0 ..
title_length)` handed to the conversion, chosen by the reply's type. -/
def title_source (A : Atoms) (reply : Reply) : List Nat :=
  if reply.type = A.STRING ∨ reply.type = A.UTF8_STRING then reply.value
  else if reply.type = A.COMPOUND_TEXT then c_string "Error: COMPOUND TEXT Encoded Title"
  else c_string "Error: Unknown Title Encoding"

/-- Outcome of `get_window_title`: the returned `bool`, the caller's `title`
buffer after the call, and the index used by `title[title_length] = 0` (none
when the function returned before that statement). -/
structure TitleResult where
  ok : Bool
  title : List Nat
  terminator : Option Nat
  deriving DecidableEq, Repr

/-- Lines 118 to 143 of `get_window_title`, for the reply left in `reply` by
the loop: choose the bytes, convert at most `MAX_TITLE_LENGTH` characters into
`title`, store the terminator at the index returned by the conversion, return
`true`.  The returned index is not compared with `(size_t)-1`; a store at an
index outside the buffer leaves the modelled buffer as it is. -/
def decode_title (A : Atoms) (mbrtowc : List Nat → MbStep) (reply : Reply)
    (title : List Nat) : TitleResult :=
  let r := mbsnrtowcs mbrtowc MAX_TITLE_LENGTH (title_source A reply) []
  { ok := true
    title := (r.1 ++ title.drop r.1.length).set r.2 0
    terminator := some r.2 }

/-- The function `get_window_title`.  `get_property window atom` is the
reply of the server to the property read (none when
`xcb_get_property_reply` returns `NULL`); `title` is the caller's buffer on
entry.  The loop over `{_NET_WM_NAME, WM_NAME}` is unrolled: it leaves with
the first reply when that has `title_length > 0`, and with the second reply
otherwise, whatever the second reply's length. -/
def get_window_title (A : Atoms) (mbrtowc : List Nat → MbStep)
    (get_property : xcb_window_t → xcb_atom_t → Option Reply)
    (window : xcb_window_t) (title : List Nat) : TitleResult :=
  match get_property window A._NET_WM_NAME with
  | none => { ok := false, title := title, terminator := none }
  | some reply =>
    if reply.value.length > 0 then decode_title A mbrtowc reply title
    else
      match get_property window A.WM_NAME with
      | none => { ok := false, title := title, terminator := none }
      | some reply => decode_title A mbrtowc reply title

/-! ## Startup scan of `main` -/

/-- The event names that `main` passes to `OUTPUT_FORMAT`. -/
inductive EventKind where
  | initial_title
  | initial_focus
  | title_changed
  | new_window
  | removed_window
  | focus_changed
  deriving DecidableEq, Repr

/-- One line written with `OUTPUT_FORMAT`: event kind, window, title. -/
structure Line where
  kind : EventKind
  window : xcb_window_t
  title : List Nat
  deriving DecidableEq, Repr

/-- The startup loop of `main` over the snapshot `windows`, with `title` the
contents of the buffer `title` before the iteration.  Each iteration resolves
the title and prints `initial_title` on success; the test
`windows[i] == focused_window` and its `initial_focus` line come after that
`if`, not inside it, and print the buffer as it then is. -/
def startup_scan (A : Atoms) (mbrtowc : List Nat → MbStep)
    (get_property : xcb_window_t → xcb_atom_t → Option Reply)
    (focused_window : xcb_window_t) :
    List xcb_window_t → List Nat → List Line
  | [], _ => []
  | w :: rest, title =>
    let r := get_window_title A mbrtowc get_property w title
    (if r.ok then [{ kind := EventKind.initial_title, window := w, title := wcs r.title }] else [])
      ++ (if w = focused_window then
            [{ kind := EventKind.initial_focus, window := w, title := wcs r.title }] else [])
      ++ startup_scan A mbrtowc get_property focused_window rest r.title

/-- Number of lines of a given event kind. -/
def count_kind (kind : EventKind) (out : List Line) : Nat :=
  (out.filter (fun l => l.kind = kind)).length

/-! ## A concrete session for evaluation -/

/-- Continuation byte of UTF-8. -/
def utf8_cont (b : Nat) : Bool := 0x80 ≤ b && b < 0xC0

/-- Character decoding of a UTF-8 locale: shortest-form sequences of one to
four bytes, surrogates and values above `0x10FFFF` rejected. -/
def utf8_mbrtowc : List Nat → MbStep
  | [] => MbStep.incomplete
  | b0 :: rest =>
    if b0 < 0x80 then MbStep.wide b0 1
    else if b0 < 0xC2 then MbStep.invalid
    else if b0 < 0xE0 then
      match rest with
      | [] => MbStep.incomplete
      | b1 :: _ =>
        if utf8_cont b1 then MbStep.wide ((b0 - 0xC0) * 64 + (b1 - 0x80)) 2
        else MbStep.invalid
    else if b0 < 0xF0 then
      match rest with
      | [] => MbStep.incomplete
      | b1 :: rest1 =>
        if !utf8_cont b1 || (b0 = 0xE0 && b1 < 0xA0) || (b0 = 0xED && 0xA0 ≤ b1) then
          MbStep.invalid
        else
          match rest1 with
          | [] => MbStep.incomplete
          | b2 :: _ =>
            if utf8_cont b2 then
              MbStep.wide ((b0 - 0xE0) * 4096 + (b1 - 0x80) * 64 + (b2 - 0x80)) 3
            else MbStep.invalid
    else if b0 < 0xF5 then
      match rest with
      | [] => MbStep.incomplete
      | b1 :: rest1 =>
        if !utf8_cont b1 || (b0 = 0xF0 && b1 < 0x90) || (b0 = 0xF4 && 0x90 ≤ b1) then
          MbStep.invalid
        else
          match rest1 with
          | [] => MbStep.incomplete
          | b2 :: rest2 =>
            if !utf8_cont b2 then MbStep.invalid
            else
              match rest2 with
              | [] => MbStep.incomplete
              | b3 :: _ =>
                if utf8_cont b3 then
                  MbStep.wide ((b0 - 0xF0) * 262144 + (b1 - 0x80) * 4096
                    + (b2 - 0x80) * 64 + (b3 - 0x80)) 4
                else MbStep.invalid
    else MbStep.invalid

/-- An atom table as a server hands it out: `STRING` and `WM_NAME` are the
predefined atoms 31 and 39, the others are interned on demand. -/
def session_atoms : Atoms :=
  { _NET_CLIENT_LIST := 301, _NET_ACTIVE_WINDOW := 302, WM_NAME := 39,
    _NET_WM_NAME := 303, UTF8_STRING := 304, COMPOUND_TEXT := 305, STRING := 31 }

/-- A server on which no window has a name property: a read of a property
that does not exist is answered with type `None` (0) and an empty value. -/
def unnamed_server : xcb_window_t → xcb_atom_t → Option Reply :=
  fun _ _ => some { type := 0, value := [] }

/-- A server on which windows have no `_NET_WM_NAME` and a `WM_NAME` of type
`STRING` with the given bytes. -/
def legacy_server (bytes : List Nat) : xcb_window_t → xcb_atom_t → Option Reply :=
  fun _ atom =>
    if atom = session_atoms.WM_NAME then some { type := session_atoms.STRING, value := bytes }
    else some { type := 0, value := [] }

/-- A server on which window 1 has the `_NET_WM_NAME` "Editor" and reads on
every other window get no reply (the window is gone). -/
def editor_server : xcb_window_t → xcb_atom_t → Option Reply :=
  fun window atom =>
    if window = 1 then
      if atom = session_atoms._NET_WM_NAME then
        some { type := session_atoms.UTF8_STRING, value := c_string "Editor" }
      else some { type := 0, value := [] }
    else none

/-- A title buffer of `MAX_TITLE_LENGTH + 1` cells that holds the given text. -/
def title_buffer (text : List Nat) : List Nat :=
  text ++ List.replicate (MAX_TITLE_LENGTH + 1 - text.length) 0

/-! ## Lemmas on the registry loops -/

theorem window_in_array_iff (window : xcb_window_t) (windows : List xcb_window_t) :
    window_in_array window windows = true ↔ window ∈ windows := by
  induction windows with
  | nil => simp [window_in_array]
  | cons w rest ih =>
    by_cases h : window = w
    · simp [window_in_array, h]
    · simp [window_in_array, h, ih]

theorem find_added_none_iff (windows new_windows : List xcb_window_t) :
    find_added windows new_windows = none ↔ ∀ w ∈ new_windows, w ∈ windows := by
  induction new_windows with
  | nil => simp [find_added]
  | cons w rest ih =>
    by_cases h : w ∈ windows
    · simp [find_added, (window_in_array_iff w windows).mpr h, ih, h]
    · have hw : window_in_array w windows = false := by
        rw [← Bool.not_eq_true, window_in_array_iff]; exact h
      simp [find_added, hw, h]

theorem find_added_some (windows new_windows : List xcb_window_t) (w : xcb_window_t)
    (h : find_added windows new_windows = some w) :
    ∃ pre post, new_windows = pre ++ w :: post ∧ (∀ x ∈ pre, x ∈ windows) ∧ w ∉ windows := by
  induction new_windows with
  | nil => simp [find_added] at h
  | cons v rest ih =>
    by_cases hv : v ∈ windows
    · simp only [find_added, (window_in_array_iff v windows).mpr hv, Bool.not_true,
        Bool.false_eq_true, if_false] at h
      obtain ⟨pre, post, hsplit, hpre, hw⟩ := ih h
      refine ⟨v :: pre, post, by simp [hsplit], ?_, hw⟩
      intro x hx
      rcases List.mem_cons.mp hx with rfl | hx
      · exact hv
      · exact hpre x hx
    · have hvf : window_in_array v windows = false := by
        rw [← Bool.not_eq_true, window_in_array_iff]; exact hv
      simp only [find_added, hvf, Bool.not_false, if_true, Option.some.injEq] at h
      subst h
      exact ⟨[], rest, rfl, by simp, hv⟩

theorem find_added_append (windows pre rest : List xcb_window_t)
    (h : ∀ x ∈ pre, x ∈ windows) :
    find_added windows (pre ++ rest) = find_added windows rest := by
  induction pre with
  | nil => rfl
  | cons v pre ih =>
    have hv : window_in_array v windows = true :=
      (window_in_array_iff v windows).mpr (h v (by simp))
    simp only [List.cons_append, find_added, hv, Bool.not_true, Bool.false_eq_true, if_false]
    exact ih (fun x hx => h x (by simp [hx]))

theorem find_removed_none_iff (new_windows windows : List xcb_window_t) (i : Nat) :
    find_removed new_windows windows i = none ↔ ∀ w ∈ windows, w ∈ new_windows := by
  induction windows generalizing i with
  | nil => simp [find_removed]
  | cons w rest ih =>
    by_cases h : w ∈ new_windows
    · simp [find_removed, (window_in_array_iff w new_windows).mpr h, ih, h]
    · have hw : window_in_array w new_windows = false := by
        rw [← Bool.not_eq_true, window_in_array_iff]; exact h
      simp [find_removed, hw, h]

theorem find_removed_some (new_windows windows : List xcb_window_t) (k i : Nat)
    (h : find_removed new_windows windows k = some i) :
    ∃ pre w post, windows = pre ++ w :: post ∧ i = k + pre.length ∧
      (∀ x ∈ pre, x ∈ new_windows) ∧ w ∉ new_windows := by
  induction windows generalizing k with
  | nil => simp [find_removed] at h
  | cons v rest ih =>
    by_cases hv : v ∈ new_windows
    · simp only [find_removed, (window_in_array_iff v new_windows).mpr hv, Bool.not_true,
        Bool.false_eq_true, if_false] at h
      obtain ⟨pre, w, post, hsplit, hi, hpre, hw⟩ := ih (k + 1) h
      refine ⟨v :: pre, w, post, by simp [hsplit], ?_, ?_, hw⟩
      · simp only [List.length_cons]; omega
      · intro x hx
        rcases List.mem_cons.mp hx with rfl | hx
        · exact hv
        · exact hpre x hx
    · have hvf : window_in_array v new_windows = false := by
        rw [← Bool.not_eq_true, window_in_array_iff]; exact hv
      simp only [find_removed, hvf, Bool.not_false, if_true, Option.some.injEq] at h
      exact ⟨[], v, rest, rfl, by simp [h], by simp, hv⟩

theorem getD_append_add (pre l : List xcb_window_t) (n : Nat) :
    (pre ++ l).getD (pre.length + n) 0 = l.getD n 0 := by
  induction pre with
  | nil => simp
  | cons a pre ih =>
    have : (a :: pre).length + n = (pre.length + n) + 1 := by simp; omega
    rw [this, List.cons_append, List.getD_cons_succ, ih]

/-- The shifting loop started just behind the cell `x` moves every later cell
down by one and leaves the last cell in place. -/
theorem shift_windows_split (post : List xcb_window_t) :
    ∀ (fuel : Nat) (pre : List xcb_window_t) (x : xcb_window_t), post.length ≤ fuel →
      ∃ last, shift_windows fuel (pre ++ x :: post) (pre.length + 1) = pre ++ post ++ [last] := by
  induction post with
  | nil =>
    intro fuel pre x _
    refine ⟨x, ?_⟩
    cases fuel with
    | zero => simp [shift_windows]
    | succ fuel => simp [shift_windows]
  | cons y post ih =>
    intro fuel pre x hfuel
    cases fuel with
    | zero => simp at hfuel
    | succ fuel =>
      have hlen : post.length ≤ fuel := by simpa using hfuel
      obtain ⟨last, hlast⟩ := ih fuel (pre ++ [y]) y hlen
      refine ⟨last, ?_⟩
      have hget : (pre ++ x :: y :: post).getD (pre.length + 1) 0 = y := by
        rw [getD_append_add]; rfl
      have hset : (pre ++ x :: y :: post).set (pre.length + 1 - 1) y
          = (pre ++ [y]) ++ y :: post := by
        simp [List.set_append_right]
      have hcond : pre.length + 1 < (pre ++ x :: y :: post).length := by
        simp
      rw [shift_windows, if_pos hcond, hget, hset]
      have := hlast
      simp only [List.length_append, List.length_singleton] at this
      rw [this]
      simp

/-- The removal branch deletes exactly the cell found. -/
theorem remove_cell (pre post : List xcb_window_t) (x : xcb_window_t) :
    (shift_windows (pre ++ x :: post).length (pre ++ x :: post) (pre.length + 1)).take
      ((pre ++ x :: post).length - 1) = pre ++ post := by
  obtain ⟨last, hlast⟩ := shift_windows_split post (pre ++ x :: post).length pre x
    (by simp only [List.length_append, List.length_cons]; omega)
  rw [hlast]
  have : (pre ++ x :: post).length - 1 = (pre ++ post).length := by simp
  rw [this, List.take_left]

theorem update_of_added (new_windows windows : List xcb_window_t) (w : xcb_window_t)
    (h : find_added windows new_windows = some w) :
    update_managed_windows new_windows windows
      = { delta := 1, windows := windows ++ [w], changed_window := w, subscribed := some w } := by
  simp [update_managed_windows, h]

theorem update_of_removed (new_windows pre post : List xcb_window_t) (x : xcb_window_t)
    (hadd : find_added (pre ++ x :: post) new_windows = none)
    (hrem : find_removed new_windows (pre ++ x :: post) 0 = some pre.length) :
    update_managed_windows new_windows (pre ++ x :: post)
      = { delta := -1, windows := pre ++ post, changed_window := x, subscribed := none } := by
  have hget : (pre ++ x :: post).getD pre.length 0 = x := by
    have := getD_append_add pre (x :: post) 0
    simpa using this
  simp only [update_managed_windows, hadd, hrem, remove_cell, hget]

theorem update_of_same (new_windows windows : List xcb_window_t)
    (hadd : find_added windows new_windows = none)
    (hrem : find_removed new_windows windows 0 = none) :
    update_managed_windows new_windows windows
      = { delta := 0, windows := windows, changed_window := 0, subscribed := none } := by
  simp [update_managed_windows, hadd, hrem]

/-- The three outcomes of one call, with the scan results that select them. -/
theorem update_cases (new_windows windows : List xcb_window_t) :
    (∃ pre w post, new_windows = pre ++ w :: post ∧ (∀ x ∈ pre, x ∈ windows) ∧ w ∉ windows ∧
        update_managed_windows new_windows windows
          = { delta := 1, windows := windows ++ [w], changed_window := w,
              subscribed := some w })
    ∨ ((∀ w ∈ new_windows, w ∈ windows) ∧
        ∃ pre w post, windows = pre ++ w :: post ∧ (∀ x ∈ pre, x ∈ new_windows) ∧
          w ∉ new_windows ∧
          update_managed_windows new_windows windows
            = { delta := -1, windows := pre ++ post, changed_window := w, subscribed := none })
    ∨ ((∀ w ∈ new_windows, w ∈ windows) ∧ (∀ w ∈ windows, w ∈ new_windows) ∧
        update_managed_windows new_windows windows
          = { delta := 0, windows := windows, changed_window := 0, subscribed := none }) := by
  cases hadd : find_added windows new_windows with
  | some w =>
    left
    obtain ⟨pre, post, hsplit, hpre, hw⟩ := find_added_some windows new_windows w hadd
    exact ⟨pre, w, post, hsplit, hpre, hw, update_of_added new_windows windows w hadd⟩
  | none =>
    right
    have hall := (find_added_none_iff windows new_windows).mp hadd
    cases hrem : find_removed new_windows windows 0 with
    | some i =>
      left
      obtain ⟨pre, w, post, hsplit, hi, hpre, hw⟩ :=
        find_removed_some new_windows windows 0 i hrem
      refine ⟨hall, pre, w, post, hsplit, hpre, hw, ?_⟩
      subst hsplit
      have hi2 : i = pre.length := by omega
      subst hi2
      exact update_of_removed new_windows pre post w hadd hrem
    | none =>
      right
      exact ⟨hall, (find_removed_none_iff new_windows windows 0).mp hrem,
        update_of_same new_windows windows hadd hrem⟩

/-! ## Claims on the window registry -/

/-- Claim C1: when some window of the snapshot `new` is absent from the
registry `old`, the call returns 1, reports the first window of `new` (in
snapshot order) that is absent from `old`, subscribes it, and leaves the
registry equal to `old` with that one window appended at the end. -/
theorem update_managed_windows_appends_first_new (old new : List xcb_window_t)
    (h : ∃ w ∈ new, w ∉ old) :
    ∃ pre w post, new = pre ++ w :: post ∧ (∀ x ∈ pre, x ∈ old) ∧ w ∉ old ∧
      update_managed_windows new old
        = { delta := 1, windows := old ++ [w], changed_window := w, subscribed := some w } := by
  obtain ⟨v, hv, hvo⟩ := h
  rcases update_cases new old with hadd | ⟨hall, _⟩ | ⟨hall, _⟩
  · exact hadd
  · exact absurd (hall v hv) hvo
  · exact absurd (hall v hv) hvo

/-- Witness of claim C1: registry `[0x1]`, snapshot `[0x1, 0x2]`. -/
theorem update_managed_windows_appends_first_new_witness :
    (∃ w ∈ [1, 2], w ∉ [1]) ∧
    (∃ pre w post, [1, 2] = pre ++ w :: post ∧ (∀ x ∈ pre, x ∈ [1]) ∧ w ∉ [1] ∧
      update_managed_windows [1, 2] [1]
        = { delta := 1, windows := [1] ++ [w], changed_window := w, subscribed := some w }) ∧
    update_managed_windows [1, 2] [1]
      = { delta := 1, windows := [1, 2], changed_window := 2, subscribed := some 2 } :=
  ⟨⟨2, by decide, by decide⟩,
    update_managed_windows_appends_first_new [1] [1, 2] ⟨2, by decide, by decide⟩,
    by decide⟩

/-- Claim C2: when every window of the snapshot `new` is in the registry `old`
and some window of `old` is absent from `new`, the call returns -1, reports the
first entry of `old` (in registry order) that is absent from `new`, and leaves
the registry equal to `old` with exactly that entry deleted, the other entries
in their order. -/
theorem update_managed_windows_deletes_first_gone (old new : List xcb_window_t)
    (hnew : ∀ w ∈ new, w ∈ old) (hold : ∃ w ∈ old, w ∉ new) :
    ∃ pre w post, old = pre ++ w :: post ∧ (∀ x ∈ pre, x ∈ new) ∧ w ∉ new ∧
      update_managed_windows new old
        = { delta := -1, windows := pre ++ post, changed_window := w, subscribed := none } := by
  obtain ⟨v, hv, hvn⟩ := hold
  rcases update_cases new old with ⟨pre, w, post, hsplit, _, hw, _⟩ | ⟨_, hrem⟩ | ⟨_, hall, _⟩
  · exact absurd (hnew w (by simp [hsplit])) hw
  · exact hrem
  · exact absurd (hall v hv) hvn

/-- Witness of claim C2: registry `[0x1, 0x2]`, snapshot `[0x2]`. -/
theorem update_managed_windows_deletes_first_gone_witness :
    (∀ w ∈ [2], w ∈ [1, 2]) ∧ (∃ w ∈ [1, 2], w ∉ [2]) ∧
    (∃ pre w post, [1, 2] = pre ++ w :: post ∧ (∀ x ∈ pre, x ∈ [2]) ∧ w ∉ [2] ∧
      update_managed_windows [2] [1, 2]
        = { delta := -1, windows := pre ++ post, changed_window := w, subscribed := none }) ∧
    update_managed_windows [2] [1, 2]
      = { delta := -1, windows := [2], changed_window := 1, subscribed := none } :=
  ⟨by decide, ⟨1, by decide, by decide⟩,
    update_managed_windows_deletes_first_gone [1, 2] [2] (by decide) ⟨1, by decide, by decide⟩,
    by decide⟩

/-- Claim C3, evaluated at a full registry: the registry holds the
`MAX_NUM_WINDOWS` = 256 distinct windows 1 .. 256 and the snapshot holds the 256
windows 2 .. 257 (window 1 closed, window 257 opened).  The call returns 1 and
the registry afterwards is the old one with 257 appended: 257 entries, one more
than the array has cells. -/
theorem update_managed_windows_exceeds_capacity :
    (List.range' 1 256).length = MAX_NUM_WINDOWS ∧ (List.range' 1 256).Nodup ∧
    get_managed_windows (List.range' 2 256) = List.range' 2 256 ∧
    update_managed_windows (List.range' 2 256) (List.range' 1 256)
      = { delta := 1, windows := List.range' 1 256 ++ [257], changed_window := 257,
          subscribed := some 257 } ∧
    (update_managed_windows (List.range' 2 256) (List.range' 1 256)).windows.length = 257 ∧
    MAX_NUM_WINDOWS
      < (update_managed_windows (List.range' 2 256) (List.range' 1 256)).windows.length := by
  have hnot : (257 : xcb_window_t) ∉ List.range' 1 256 := by
    intro hmem
    rw [List.mem_range'_1] at hmem
    omega
  have hin : window_in_array 257 (List.range' 1 256) = false := by
    rw [← Bool.not_eq_true, window_in_array_iff]; exact hnot
  have hsplit : List.range' 2 256 = List.range' 2 255 ++ [257] := by
    rw [show (256 : Nat) = 255 + 1 from rfl, List.range'_concat]
  have hpre : ∀ x ∈ List.range' 2 255, x ∈ List.range' 1 256 := by
    intro x hx
    rw [List.mem_range'_1] at hx ⊢
    omega
  have hadd : find_added (List.range' 1 256) (List.range' 2 256) = some 257 := by
    rw [hsplit, find_added_append _ _ _ hpre]
    simp [find_added, hin]
  have hres := update_of_added (List.range' 2 256) (List.range' 1 256) 257 hadd
  refine ⟨by simp [MAX_NUM_WINDOWS], List.nodup_range' 1 256, ?_, hres, ?_, ?_⟩
  · simp [get_managed_windows, MAX_NUM_WINDOWS]
  · rw [hres]; simp
  · rw [hres]; simp [MAX_NUM_WINDOWS]

/-- Claim C4: every call returns exactly one of 1, -1, 0, and the registry
afterwards is the old one with one window appended, with one entry deleted, or
unchanged, respectively; so its size afterwards is the size before plus the
returned value, however many windows the snapshot and the registry differ by. -/
theorem update_managed_windows_single_delta (old new : List xcb_window_t) :
    (((update_managed_windows new old).delta = 1 ∧
        ∃ w, (update_managed_windows new old).windows = old ++ [w])
      ∨ ((update_managed_windows new old).delta = -1 ∧
        ∃ pre w post, old = pre ++ w :: post ∧
          (update_managed_windows new old).windows = pre ++ post)
      ∨ ((update_managed_windows new old).delta = 0 ∧
        (update_managed_windows new old).windows = old))
    ∧ ((update_managed_windows new old).windows.length : Int)
        = (old.length : Int) + (update_managed_windows new old).delta := by
  rcases update_cases new old with ⟨pre, w, post, _, _, _, hres⟩
    | ⟨_, pre, w, post, hsplit, _, _, hres⟩ | ⟨_, _, hres⟩
  · rw [hres]
    exact ⟨Or.inl ⟨rfl, w, rfl⟩, by simp⟩
  · rw [hres]
    refine ⟨Or.inr (Or.inl ⟨rfl, pre, w, post, hsplit, rfl⟩), ?_⟩
    subst hsplit
    simp only [List.length_append, List.length_cons]
    push_cast
    ring
  · rw [hres]
    exact ⟨Or.inr (Or.inr ⟨rfl, rfl⟩), by simp⟩

theorem update_nodup (new_windows windows : List xcb_window_t) (h : windows.Nodup) :
    (update_managed_windows new_windows windows).windows.Nodup := by
  rcases update_cases new_windows windows with ⟨pre, w, post, _, _, hw, hres⟩
    | ⟨_, pre, w, post, hsplit, _, _, hres⟩ | ⟨_, _, hres⟩
  · rw [hres]
    show (windows ++ [w]).Nodup
    rw [List.nodup_append]
    refine ⟨h, List.nodup_singleton w, ?_⟩
    intro a ha hb
    rw [List.mem_singleton] at hb
    subst hb
    exact hw ha
  · rw [hres]
    show (pre ++ post).Nodup
    subst hsplit
    exact (List.nodup_cons.mp (List.nodup_middle.mp h)).2
  · rw [hres]
    exact h

/-- Claim C9: from a registry without duplicate entries, one call with any
snapshot (repeated windows allowed) leaves a registry without duplicate
entries, and so does every sequence of calls. -/
theorem update_managed_windows_nodup (old : List xcb_window_t) (h : old.Nodup) :
    (∀ new, (update_managed_windows new old).windows.Nodup) ∧
    (∀ snapshots, (run_updates old snapshots).Nodup) := by
  refine ⟨fun new => update_nodup new old h, ?_⟩
  intro snapshots
  induction snapshots generalizing old with
  | nil => exact h
  | cons new rest ih => exact ih _ (update_nodup new old h)

/-- Witness of claim C9: registry `[1, 2]`, with the snapshot `[3, 3, 2]` and
the sequence of snapshots `[3, 3, 2]`, `[3, 3, 2]`, `[]`. -/
theorem update_managed_windows_nodup_witness :
    [1, 2].Nodup ∧
    ((∀ new, (update_managed_windows new [1, 2]).windows.Nodup) ∧
      (∀ snapshots, (run_updates [1, 2] snapshots).Nodup)) ∧
    (update_managed_windows [3, 3, 2] [1, 2]).windows = [1, 2, 3] ∧
    run_updates [1, 2] [[3, 3, 2], [3, 3, 2], []] = [3] :=
  ⟨by decide, update_managed_windows_nodup [1, 2] (by decide), by decide, by decide⟩

/-- Claim C10: the call returns 0 exactly when the registry `old` and the
snapshot `new` hold the same set of windows (order and repetition aside), and
exactly then it leaves the registry unchanged with changed window 0. -/
theorem update_managed_windows_zero_iff_same_set (old new : List xcb_window_t) :
    ((update_managed_windows new old).delta = 0
      ↔ (∀ w ∈ new, w ∈ old) ∧ (∀ w ∈ old, w ∈ new))
    ∧ ((update_managed_windows new old).delta = 0
      ↔ update_managed_windows new old
          = { delta := 0, windows := old, changed_window := 0, subscribed := none }) := by
  rcases update_cases new old with ⟨pre, w, post, hsplit, _, hw, hres⟩
    | ⟨_, pre, w, post, hsplit, _, hw, hres⟩ | ⟨h1, h2, hres⟩
  · have hd : (update_managed_windows new old).delta = 1 := by rw [hres]
    have hne : (update_managed_windows new old).delta ≠ 0 := by rw [hd]; decide
    refine ⟨⟨fun h => absurd h hne, fun h => absurd (h.1 w (by simp [hsplit])) hw⟩,
      ⟨fun h => absurd h hne, fun h => ?_⟩⟩
    have := congrArg UpdateResult.delta h
    exact absurd this hne
  · have hd : (update_managed_windows new old).delta = -1 := by rw [hres]
    have hne : (update_managed_windows new old).delta ≠ 0 := by rw [hd]; decide
    refine ⟨⟨fun h => absurd h hne, fun h => absurd (h.2 w (by simp [hsplit])) hw⟩,
      ⟨fun h => absurd h hne, fun h => ?_⟩⟩
    have := congrArg UpdateResult.delta h
    exact absurd this hne
  · rw [hres]
    exact ⟨⟨fun _ => ⟨h1, h2⟩, fun _ => rfl⟩, ⟨fun _ => rfl, fun _ => rfl⟩⟩

/-! ## Lemmas on title resolution -/

/-- Storing the terminator just behind a run of non-null characters makes the
buffer hold exactly that run. -/
theorem wcs_terminated (written rest : List Nat) (h : ∀ c ∈ written, c ≠ 0) :
    wcs ((written ++ rest).set written.length 0) = written := by
  induction written with
  | nil =>
    cases rest with
    | nil => simp [wcs]
    | cons a rest => simp [wcs]
  | cons c written ih =>
    have hc : c ≠ 0 := h c (by simp)
    have ih2 := ih (fun x hx => h x (by simp [hx]))
    have hset : ((c :: written) ++ rest).set (c :: written).length 0
        = c :: ((written ++ rest).set written.length 0) := rfl
    rw [hset]
    unfold wcs at ih2 ⊢
    rw [List.takeWhile_cons, ih2]
    simp [hc]

/-- The conversion never stores more than `len` further cells, and unless it
reports an error its result is at most the number of cells the buffer then
holds. -/
theorem mbsnrtowcs_bounds (mbrtowc : List Nat → MbStep) (len : Nat) :
    ∀ (src out : List Nat),
      (mbsnrtowcs mbrtowc len src out).1.length ≤ out.length + len ∧
      ((mbsnrtowcs mbrtowc len src out).2 = SIZE_MAX ∨
        (mbsnrtowcs mbrtowc len src out).2 ≤ out.length + len) := by
  induction len with
  | zero => intro src out; simp [mbsnrtowcs]
  | succ len ih =>
    intro src out
    rw [mbsnrtowcs]
    by_cases hsrc : src = []
    · simp only [hsrc, if_true]
      exact ⟨by omega, Or.inr (by omega)⟩
    · simp only [hsrc, if_false]
      cases hstep : mbrtowc src with
      | invalid => exact ⟨by simp only []; omega, Or.inl rfl⟩
      | incomplete => exact ⟨by simp only []; omega, Or.inr (by simp only []; omega)⟩
      | wide wc n =>
        simp only []
        by_cases hwc : wc = 0
        · simp only [hwc, if_true, List.length_append, List.length_singleton]
          exact ⟨by omega, Or.inr (by omega)⟩
        · simp only [hwc, if_false]
          have := ih (src.drop n) (out ++ [wc])
          simp only [List.length_append, List.length_singleton] at this
          refine ⟨by omega, ?_⟩
          rcases this.2 with h | h
          · exact Or.inl h
          · exact Or.inr (by omega)

/-- A run of non-null ASCII bytes that fits is converted byte for byte in
every locale whose encoding extends ASCII. -/
theorem mbsnrtowcs_ascii (mbrtowc : List Nat → MbStep)
    (hascii : ∀ b rest, 0 < b → b < 128 → mbrtowc (b :: rest) = MbStep.wide b 1)
    (len : Nat) :
    ∀ (src out : List Nat), (∀ b ∈ src, 0 < b ∧ b < 128) → src.length ≤ len →
      mbsnrtowcs mbrtowc len src out = (out ++ src, (out ++ src).length) := by
  induction len with
  | zero =>
    intro src out _ hlen
    have : src = [] := List.length_eq_zero.mp (Nat.le_zero.mp hlen)
    simp [mbsnrtowcs, this]
  | succ len ih =>
    intro src out hsrc hlen
    cases src with
    | nil => simp [mbsnrtowcs]
    | cons b rest =>
      have hb := hsrc b (by simp)
      have hne : b ≠ 0 := by omega
      rw [mbsnrtowcs]
      simp only [List.cons_ne_nil, if_false, reduceCtorEq]
      rw [hascii b rest hb.1 hb.2]
      simp only [hne, if_false, List.drop_one, List.tail_cons]
      rw [ih rest (out ++ [b]) (fun x hx => hsrc x (by simp [hx])) (by simpa using hlen)]
      simp

theorem utf8_mbrtowc_ascii (b : Nat) (rest : List Nat) (_h0 : 0 < b) (h : b < 128) :
    utf8_mbrtowc (b :: rest) = MbStep.wide b 1 := by
  simp [utf8_mbrtowc, h]

/-- A reply of type `STRING` or `UTF8_STRING` hands its own bytes to the
conversion. -/
theorem title_source_string (A : Atoms) (reply : Reply)
    (h : reply.type = A.STRING ∨ reply.type = A.UTF8_STRING) :
    title_source A reply = reply.value := by
  simp [title_source, h]

/-- A reply of type `COMPOUND_TEXT` hands the fixed error text to the
conversion, whatever its bytes. -/
theorem title_source_compound (A : Atoms) (reply : Reply)
    (hs : reply.type ≠ A.STRING) (hu : reply.type ≠ A.UTF8_STRING)
    (hc : reply.type = A.COMPOUND_TEXT) :
    title_source A reply = c_string "Error: COMPOUND TEXT Encoded Title" := by
  unfold title_source
  rw [if_neg (not_or.mpr ⟨hs, hu⟩), if_pos hc]

/-- A reply of any other type hands the other fixed error text to the
conversion, whatever its bytes. -/
theorem title_source_unknown (A : Atoms) (reply : Reply)
    (hs : reply.type ≠ A.STRING) (hu : reply.type ≠ A.UTF8_STRING)
    (hc : reply.type ≠ A.COMPOUND_TEXT) :
    title_source A reply = c_string "Error: Unknown Title Encoding" := by
  unfold title_source
  rw [if_neg (not_or.mpr ⟨hs, hu⟩), if_neg hc]

/-- Decoding a source of non-null ASCII bytes that fits gives exactly that
text, terminated behind its last character, whatever the buffer held. -/
theorem decode_title_ascii (A : Atoms) (mbrtowc : List Nat → MbStep)
    (hascii : ∀ b rest, 0 < b → b < 128 → mbrtowc (b :: rest) = MbStep.wide b 1)
    (reply : Reply) (title : List Nat)
    (hsrc : ∀ b ∈ title_source A reply, 0 < b ∧ b < 128)
    (hlen : (title_source A reply).length ≤ MAX_TITLE_LENGTH) :
    (decode_title A mbrtowc reply title).ok = true ∧
    wcs (decode_title A mbrtowc reply title).title = title_source A reply ∧
    (decode_title A mbrtowc reply title).terminator = some (title_source A reply).length := by
  have hconv := mbsnrtowcs_ascii mbrtowc hascii MAX_TITLE_LENGTH (title_source A reply) []
    hsrc hlen
  simp only [List.nil_append] at hconv
  refine ⟨rfl, ?_, ?_⟩
  · simp only [decode_title, hconv]
    exact wcs_terminated _ _ (fun c hc => by have := hsrc c hc; omega)
  · simp only [decode_title, hconv]

/-- The function returns `true` whenever both property reads are answered,
also when both values are empty. -/
theorem get_window_title_ok_of_replies (A : Atoms) (mbrtowc : List Nat → MbStep)
    (get_property : xcb_window_t → xcb_atom_t → Option Reply)
    (window : xcb_window_t) (title : List Nat) (r1 r2 : Reply)
    (h1 : get_property window A._NET_WM_NAME = some r1)
    (h2 : get_property window A.WM_NAME = some r2) :
    (get_window_title A mbrtowc get_property window title).ok = true := by
  simp only [get_window_title, h1, h2]
  split <;> rfl

/-- The classification of the reply's type, for distinct atoms and a locale
whose encoding extends ASCII: `STRING` and `UTF8_STRING` hand the property's
bytes to the conversion, `COMPOUND_TEXT` and every other type leave their fixed
error text as the title, whatever the property's bytes and the prior buffer. -/
theorem title_classification (A : Atoms) (mbrtowc : List Nat → MbStep)
    (hascii : ∀ b rest, 0 < b → b < 128 → mbrtowc (b :: rest) = MbStep.wide b 1)
    (hcs : A.COMPOUND_TEXT ≠ A.STRING) (hcu : A.COMPOUND_TEXT ≠ A.UTF8_STRING)
    (reply : Reply) (title : List Nat) :
    ((reply.type = A.STRING ∨ reply.type = A.UTF8_STRING) →
      title_source A reply = reply.value) ∧
    (reply.type = A.COMPOUND_TEXT →
      wcs (decode_title A mbrtowc reply title).title
        = c_string "Error: COMPOUND TEXT Encoded Title") ∧
    (reply.type ≠ A.STRING → reply.type ≠ A.UTF8_STRING → reply.type ≠ A.COMPOUND_TEXT →
      wcs (decode_title A mbrtowc reply title).title
        = c_string "Error: Unknown Title Encoding") := by
  refine ⟨title_source_string A reply, ?_, ?_⟩
  · intro hc
    have hsrc := title_source_compound A reply (by rw [hc]; exact hcs) (by rw [hc]; exact hcu) hc
    have h := decode_title_ascii A mbrtowc hascii reply title
      (by rw [hsrc]; decide) (by rw [hsrc]; decide)
    rw [h.2.1, hsrc]
  · intro hs hu hc
    have hsrc := title_source_unknown A reply hs hu hc
    have h := decode_title_ascii A mbrtowc hascii reply title
      (by rw [hsrc]; decide) (by rw [hsrc]; decide)
    rw [h.2.1, hsrc]

/-! ## Claims on title resolution and the startup scan -/

/-- Claim C5, evaluated on a window without name properties: both reads are
answered with an empty value of type `None`, and for every window and every
prior buffer the function returns `true` with the title
"Error: Unknown Title Encoding", terminated at index 29. -/
theorem get_window_title_succeeds_without_name (window : xcb_window_t) (title : List Nat) :
    unnamed_server window session_atoms._NET_WM_NAME = some { type := 0, value := [] } ∧
    unnamed_server window session_atoms.WM_NAME = some { type := 0, value := [] } ∧
    (get_window_title session_atoms utf8_mbrtowc unnamed_server window title).ok = true ∧
    wcs (get_window_title session_atoms utf8_mbrtowc unnamed_server window title).title
      = c_string "Error: Unknown Title Encoding" ∧
    (get_window_title session_atoms utf8_mbrtowc unnamed_server window title).terminator
      = some 29 := by
  have hsrc : title_source session_atoms { type := 0, value := [] }
      = c_string "Error: Unknown Title Encoding" := by decide
  have h := decode_title_ascii session_atoms utf8_mbrtowc utf8_mbrtowc_ascii
    { type := 0, value := [] } title (by rw [hsrc]; decide) (by rw [hsrc]; decide)
  have hrun : get_window_title session_atoms utf8_mbrtowc unnamed_server window title
      = decode_title session_atoms utf8_mbrtowc { type := 0, value := [] } title := by
    simp [get_window_title, unnamed_server]
  rw [hrun, h.2.1, h.2.2, hsrc]
  exact ⟨rfl, rfl, h.1, rfl, by decide⟩

/-- Claim C6, evaluated on one reply and two prior buffers: the winning reply
is the `WM_NAME` of type `STRING` with the Latin-1 bytes of "Édit" in a UTF-8
locale.  The bytes handed to the conversion are the property's own, the call
returns `true` both times, and the title it leaves is "Editor" when the buffer
held "Editor" and "Terminal" when the buffer held "Terminal": the title is not
determined by the type and the bytes. -/
theorem get_window_title_keeps_stale_title :
    title_source session_atoms { type := session_atoms.STRING, value := [0xC9, 0x64, 0x69, 0x74] }
      = [0xC9, 0x64, 0x69, 0x74] ∧
    (get_window_title session_atoms utf8_mbrtowc (legacy_server [0xC9, 0x64, 0x69, 0x74]) 1
      (title_buffer (c_string "Editor"))).ok = true ∧
    wcs (get_window_title session_atoms utf8_mbrtowc (legacy_server [0xC9, 0x64, 0x69, 0x74]) 1
      (title_buffer (c_string "Editor"))).title = c_string "Editor" ∧
    (get_window_title session_atoms utf8_mbrtowc (legacy_server [0xC9, 0x64, 0x69, 0x74]) 1
      (title_buffer (c_string "Terminal"))).ok = true ∧
    wcs (get_window_title session_atoms utf8_mbrtowc (legacy_server [0xC9, 0x64, 0x69, 0x74]) 1
      (title_buffer (c_string "Terminal"))).title = c_string "Terminal" := by
  decide

set_option maxRecDepth 8192 in
/-- Claim C7, evaluated on bytes that are invalid in the locale: the winning
reply is the `WM_NAME` of type `STRING` with the Latin-1 bytes of "Cafés" in a
UTF-8 locale.  For every window and every prior buffer the function returns
`true` and stores the terminator at index `(size_t)-1` = 18446744073709551615,
which is not an index of a buffer of `MAX_TITLE_LENGTH + 1` cells; on a buffer
whose 257 cells held no null before the call, the title left behind runs over
all 257 cells. -/
theorem get_window_title_terminator_out_of_range (window : xcb_window_t) (title : List Nat) :
    (get_window_title session_atoms utf8_mbrtowc
      (legacy_server [0x43, 0x61, 0x66, 0xE9, 0x73]) window title).ok = true ∧
    (get_window_title session_atoms utf8_mbrtowc
      (legacy_server [0x43, 0x61, 0x66, 0xE9, 0x73]) window title).terminator
        = some SIZE_MAX ∧
    SIZE_MAX = 18446744073709551615 ∧
    MAX_TITLE_LENGTH < SIZE_MAX ∧
    wcs (get_window_title session_atoms utf8_mbrtowc
      (legacy_server [0x43, 0x61, 0x66, 0xE9, 0x73]) window
      (List.replicate (MAX_TITLE_LENGTH + 1) 0x3F)).title
        = [0x43, 0x61, 0x66] ++ List.replicate 254 0x3F ∧
    MAX_TITLE_LENGTH < (wcs (get_window_title session_atoms utf8_mbrtowc
      (legacy_server [0x43, 0x61, 0x66, 0xE9, 0x73]) window
      (List.replicate (MAX_TITLE_LENGTH + 1) 0x3F)).title).length := by
  have hconv : mbsnrtowcs utf8_mbrtowc MAX_TITLE_LENGTH
      (title_source session_atoms
        { type := session_atoms.STRING, value := [0x43, 0x61, 0x66, 0xE9, 0x73] }) []
      = ([0x43, 0x61, 0x66], SIZE_MAX) := by decide
  have hrun : ∀ buffer, get_window_title session_atoms utf8_mbrtowc
      (legacy_server [0x43, 0x61, 0x66, 0xE9, 0x73]) window buffer
      = decode_title session_atoms utf8_mbrtowc
          { type := session_atoms.STRING, value := [0x43, 0x61, 0x66, 0xE9, 0x73] } buffer := by
    intro buffer
    simp [get_window_title, legacy_server, session_atoms]
  have hfull : wcs (decode_title session_atoms utf8_mbrtowc
      { type := session_atoms.STRING, value := [0x43, 0x61, 0x66, 0xE9, 0x73] }
      (List.replicate (MAX_TITLE_LENGTH + 1) 0x3F)).title
        = [0x43, 0x61, 0x66] ++ List.replicate 254 0x3F := by decide
  rw [hrun, hrun, hfull]
  refine ⟨rfl, ?_, by decide, by decide, rfl, by simp [MAX_TITLE_LENGTH]⟩
  simp only [decode_title, hconv]

/-- Claim C8, evaluated on a snapshot whose focused window does not resolve:
the snapshot is `[1, 2]`, the active window is 2, window 1 has the title
"Editor" and the reads on window 2 get no reply.  Title resolution of window 2
fails, and the scan still prints one `initial_focus` line for it, carrying the
title of window 1. -/
theorem startup_scan_reports_unresolved_focus :
    (get_window_title session_atoms utf8_mbrtowc editor_server 2
      (title_buffer (c_string "Editor"))).ok = false ∧
    startup_scan session_atoms utf8_mbrtowc editor_server 2 (get_managed_windows [1, 2])
        (title_buffer [])
      = [{ kind := EventKind.initial_title, window := 1, title := c_string "Editor" },
         { kind := EventKind.initial_focus, window := 2, title := c_string "Editor" }] ∧
    count_kind EventKind.initial_focus
      (startup_scan session_atoms utf8_mbrtowc editor_server 2 (get_managed_windows [1, 2])
        (title_buffer [])) = 1 := by
  decide

end Xtmon
